import Mathlib

set_option maxRecDepth 10000

/-
Verification development for the les-military-mrc preprocessing pipeline.

Shallow embedding of src/preprocess/3.gen_mrc_dataset.py and of the passage
selection core of src/preprocess/3.extract_paragraph.py.  Python strings are
List Char, token sequences are List String, scores are exact rationals, and a
Python uncaught exception (IndexError / KeyError) is modelled by Option.none.
-/

/-
Embedding of the passage-selection core of src/preprocess/3.extract_paragraph.py
(extract_paragraph, lines 49-119, for one document).  Tokens are strings; the
paragraph match scores come from utils/metric_util (an external collaborator
per spec section 6) and are passed in as a list of exact rationals.  The
parallel feature arrays (pos, keyword, word-in-question) undergo the same
index selection and are not modelled; the claims below concern only the
selected passage.
-/

/-
Embedding of src/preprocess/3.gen_mrc_dataset.py.
-/

/-
Lemmas about the string-search primitives.
-/

/-- Python list indexing l[i]: negative indices count from the end, and an
out-of-range index (IndexError) is modelled by none. -/
def pyGet {α : Type} (l : List α) (i : Int) : Option α :=
  if 0 ≤ i then l.get? i.toNat
  else if i.natAbs ≤ l.length then l.get? (l.length - i.natAbs) else none

/-- Normalisation of one Python slice bound: negative bounds count from the
end and are clamped at 0, oversized bounds are clamped at the length. -/
def pyIdx {α : Type} (l : List α) (i : Int) : Nat :=
  if i < 0 then ((l.length : Int) + i).toNat else min i.toNat l.length

/-- Python slice l[a:b] (step 1). -/
def pySlice {α : Type} (l : List α) (a b : Int) : List α :=
  (l.take (pyIdx l b)).drop (pyIdx l a)

/-- Python slice l[:k]; k may be negative, counting from the end. -/
def pyTakeTo {α : Type} (k : Int) (l : List α) : List α :=
  if 0 ≤ k then l.take k.toNat else l.take (((l.length : Int) + k).toNat)

/-- Python substring test (pat in l) for character sequences. -/
def containsSeq (pat : List Char) : List Char → Bool
  | [] => pat.isEmpty
  | c :: rest => pat.isPrefixOf (c :: rest) || containsSeq pat rest

/-- Python str.index: the first start position of pat inside l.  Only ever
used (as in the source) under a containment guard, where it is total. -/
def indexOfSeqD (pat : List Char) : List Char → Nat
  | [] => 0
  | c :: rest => if pat.isPrefixOf (c :: rest) then 0 else indexOfSeqD pat rest + 1

/-- Worker for splitOnSeq.  The fuel argument starts at the length of the
scanned list and dominates it throughout, so the fuel-exhausted branch is
unreachable; it only makes the recursion structural so that concrete values
reduce inside the kernel. -/
def splitOnGo (s0 : Char) (sr : List Char) : Nat → List Char → List Char → List (List Char)
  | _, [], acc => [acc.reverse]
  | 0, l, acc => [acc.reverse ++ l]
  | fuel + 1, c :: rest, acc =>
    if (s0 :: sr).isPrefixOf (c :: rest) then
      acc.reverse :: splitOnGo s0 sr fuel (rest.drop sr.length) []
    else
      splitOnGo s0 sr fuel rest (c :: acc)

/-- Python str.split(sep) for a nonempty separator: left-to-right scan on
non-overlapping occurrences. -/
def splitOnSeq (sep : List Char) (l : List Char) : List (List Char) :=
  match sep with
  | [] => [l]
  | s0 :: sr => splitOnGo s0 sr l.length l []

/-- Python str.replace(old, new_empty): removal of every occurrence of a
nonempty pattern, realised as split-and-join exactly like CPython does. -/
def removeAll (pat : List Char) (l : List Char) : List Char :=
  (splitOnSeq pat l).flatten

/-- Python str.strip(): drop whitespace from both ends. -/
def stripWs (l : List Char) : List Char :=
  ((l.dropWhile Char.isWhitespace).reverse.dropWhile Char.isWhitespace).reverse

/-- Order-preserving deduplication, keeping the first occurrence of each
element.  Models list(set(...)) in find_answer_in_docid; CPython set order
for small ints is implementation-defined, and every theorem below is
insensitive to the order of this list. -/
def dedupFirst : List Nat → List Nat
  | [] => []
  | a :: rest => a :: (dedupFirst rest).filter (fun b => b ≠ a)

/-- Association-list lookup; none models a Python dict KeyError. -/
def lookupKey {α : Type} : List (Nat × α) → Nat → Option α
  | [], _ => none
  | (k, v) :: rest, d => if k = d then some v else lookupKey rest d

/-- Option-valued map over a list, failing when any element fails (used to
model loops whose body may raise). -/
def omap {α β : Type} (f : α → Option β) : List α → Option (List β)
  | [] => some []
  | a :: l => (f a).bind fun b => (omap f l).map fun bs => b :: bs

/-- Worker for one row of the longest-common-subsequence dynamic program:
given the previous row (without its leading 0), the diagonal value and the
value to the left, produce the rest of the new row. -/
def lcsGo (x : Char) : List Char → List Nat → Nat → Nat → List Nat
  | [], _, _, _ => []
  | _ :: _, [], _, _ => []
  | c :: bs, p :: ps, diag, left =>
    let v := if x = c then diag + 1 else max left p
    v :: lcsGo x bs ps p v

/-- One dynamic-programming row update for the LCS length. -/
def lcsStep (b : List Char) (prev : List Nat) (x : Char) : List Nat :=
  match prev with
  | [] => []
  | p0 :: ps => 0 :: lcsGo x b ps p0 0

/-- Longest common subsequence length of two character sequences. -/
def lcsLen (a b : List Char) : Nat :=
  (a.foldl (lcsStep b) (List.replicate (b.length + 1) 0)).getLastD 0

/-- Modelled from the spec: utils/rouge.RougeL (imported by
3.gen_mrc_dataset.py but not part of the given sources).  Per spec section
4.1: with L the longest-common-subsequence length, precision P = L/|cand|
and recall R = L/|ref| are combined into the F-measure
((1+β²)·P·R)/(R+β²·P) with β = 1.2, and the score is 0 when either input
is empty or the denominator vanishes (L = 0).  With β² = 36/25 the fraction
clears to 61·L² / (L·(25·|cand| + 36·|ref|)); the theorem
rougeScore_eq_formula below proves this identity against the literal
formula. -/
def rougeScore (cand ref : List Char) : ℚ :=
  if cand.isEmpty || ref.isEmpty then 0
  else
    let L := lcsLen cand ref
    if L = 0 then 0
    else mkRat (61 * L * L) (L * (25 * cand.length + 36 * ref.length))

/-- The Chinese full stop character tested by find_best_match_index. -/
def stopChar : Char := '。'

/-- State of the fuzzy fallback search of find_best_match_index: the best
score with its window, and the moving upper bound last_end_in_sub_text for
the end-index enumeration. -/
structure FuzzySt where
  bestScore : ℚ
  bestStart : Int
  bestEnd : Int
  lastEnd : Int
deriving DecidableEq

/-- Descending integer range [hi, hi-1, ..., lo], i.e. Python
range(hi, lo-1, -1). -/
def descRange (hi lo : Int) : List Int :=
  (List.range (hi - lo + 1).toNat).map fun (k : Nat) => hi - (k : Int)

/-- Body of the inner loop of the fuzzy search (one candidate end index). -/
def fuzzyInnerStep (sub doc : List Char) (startIdx : Nat) (st : FuzzySt) (e : Int) : FuzzySt :=
  match doc.get? e.toNat with
  | none => st
  | some c =>
    if c ∈ sub then
      let sc := rougeScore (pySlice doc (startIdx : Int) (e + 1)) sub
      if st.bestScore < sc then ⟨sc, (startIdx : Int), e, e⟩ else st
    else st

/-- Body of the outer loop of the fuzzy search (one candidate start index);
the end range is materialised from the current lastEnd before the inner
loop runs, exactly as Python range() does. -/
def fuzzyOuterStep (sub doc : List Char) (st : FuzzySt) (startIdx : Nat) : FuzzySt :=
  match doc.get? startIdx with
  | none => st
  | some c =>
    if c ∈ sub then
      (descRange st.lastEnd (startIdx : Int)).foldl (fuzzyInnerStep sub doc startIdx) st
    else st

/-- Fuzzy coverage search of find_best_match_index (lines 47-70 of
3.gen_mrc_dataset.py): enumerate start positions whose character occurs in
sub, end positions downward from the best end found so far, and keep the
window with the maximal Rouge-L score against sub. -/
def fuzzySearch (sub doc : List Char) : FuzzySt :=
  (List.range (doc.length - sub.length)).foldl (fuzzyOuterStep sub doc)
    ⟨0, -1, -1, (doc.length : Int) - 1⟩

/-- find_best_match_index of 3.gen_mrc_dataset.py: locate sub_text inside
doc_content, returning (best_start, best_end, score) with best_end
inclusive.  Tries exact containment, containment after removing a trailing
Chinese full stop, containment after removing spaces, then the fuzzy
search; returns (-1, -1, 0) when everything fails. -/
def find_best_match_index (sub doc : List Char) : Int × Int × ℚ :=
  if containsSeq sub doc then
    let s := indexOfSeqD sub doc
    ((s : Int), (s : Int) + (sub.length : Int) - 1, 1)
  else if sub.getLast? = some stopChar ∧ containsSeq sub.dropLast doc then
    let sub2 := sub.dropLast
    let s := indexOfSeqD sub2 doc
    ((s : Int), (s : Int) + (sub2.length : Int) - 1, 1)
  else if containsSeq (sub.filter fun c => c ≠ ' ') doc then
    let sub3 := sub.filter fun c => c ≠ ' '
    let s := indexOfSeqD sub3 doc
    ((s : Int), (s : Int) + (sub3.length : Int) - 1, 1)
  else
    let st := fuzzySearch sub doc
    if st.bestScore = 0 then (-1, -1, 0) else (st.bestStart, st.bestEnd, st.bestScore)

/-- The predefined splitter token of extract_paragraph. -/
def splitterTok : String := "<splitter>"

/-- para_infos of extract_paragraph: one (match_score, length, original
index) triple per paragraph, zipping paragraphs with their scores exactly
like the Python zip (truncating at the shorter list). -/
def paraInfos (paras : List (List String)) (scores : List ℚ) : List (ℚ × Nat × Nat) :=
  ((paras.zip scores).enum).map fun x => (x.2.2, x.2.1.length, x.1)

/-- Sort key of para_infos.sort(key=lambda x: (-x[0], x[1])): higher score
first, shorter paragraph first on ties. -/
def leInfo (a b : ℚ × Nat × Nat) : Prop :=
  b.1 < a.1 ∨ (a.1 = b.1 ∧ a.2.1 ≤ b.2.1)

instance : DecidableRel leInfo := fun a b =>
  inferInstanceAs (Decidable (b.1 < a.1 ∨ (a.1 = b.1 ∧ a.2.1 ≤ b.2.1)))

/-- Relevance-sorted para_infos (Python list.sort and insertion sort are
both stable; no theorem below depends on the tie order). -/
def sortInfos (infos : List (ℚ × Nat × Nat)) : List (ℚ × Nat × Nat) :=
  List.insertionSort leInfo infos

/-- Greedy budget loop of extract_paragraph (lines 68-77): walk the sorted
para_infos keeping a running length (title length + 1 at entry, +1 per
paragraph for its splitter), accept paragraphs while the budget holds, and
on the first overflow record (paragraph id, cut index M - running + 1) and
stop. -/
def selectLoop (paras : List (List String)) (M : Nat) :
    List (ℚ × Nat × Nat) → Nat → List Nat × Option (Nat × Int)
  | [], _ => ([], none)
  | info :: rest, acc =>
    let pid := info.2.2
    let acc2 := acc + (paras.getD pid []).length + 1
    if acc2 ≤ M then
      let r := selectLoop paras M rest acc2
      (pid :: r.1, r.2)
    else ([], some (pid, (M : Int) - (acc2 : Int) + 1))

/-- Result of the selection phase for one document: accepted paragraph ids
in relevance order plus the optional truncated overflow paragraph. -/
def selectState (title : List String) (paras : List (List String))
    (scores : List ℚ) (M : Nat) : List Nat × Option (Nat × Int) :=
  selectLoop paras M (sortInfos (paraInfos paras scores)) (title.length + 1)

/-- The paragraphs that enter the final passage, in passage order and
tagged with their original index: accepted ids sorted ascending (line 80,
selected_para_ids.sort()), then the truncated overflow paragraph appended
last (lines 88-90). -/
def passageEntries (title : List String) (paras : List (List String))
    (scores : List ℚ) (M : Nat) : List (Nat × List String) :=
  let st := selectState title paras scores M
  (List.insertionSort (fun a b => a ≤ b) st.1).map (fun i => (i, paras.getD i [])) ++
    match st.2 with
    | some pc => [(pc.1, pyTakeTo pc.2 (paras.getD pc.1 []))]
    | none => []

/-- segmented_passage of extract_paragraph (lines 97-100 and 116): title and
selected paragraphs each followed by a splitter token, with the trailing
splitter removed. -/
def extractPassage (title : List String) (paras : List (List String))
    (scores : List ℚ) (M : Nat) : List String :=
  (((title :: (passageEntries title paras scores M).map Prod.snd).map
      fun p => p ++ [splitterTok]).flatten).dropLast

/-- The literal pattern prefix tested by the python expression
(at-content not in para_str); spelled out as a character list. -/
def atContentSeq : List Char := ("@content").toList

/-- Full marker string at-content-d-at for document id d
(format string at line 107/131; d is a single digit). -/
def markerSeq (d : Nat) : List Char :=
  ("@content").toList ++ [Nat.digitChar d, '@']

/-- Marker remnant content-d-at removed by the replace calls at lines 110
and 136. -/
def innerMarker (d : Nat) : List Char :=
  ("content").toList ++ [Nat.digitChar d, '@']

/-- Worker for scanMarkers.  The fuel starts at the length of the scanned
list and dominates it throughout (every step consumes at least one
character), so the fuel-exhausted branch is unreachable; it only makes the
recursion structural. -/
def scanMarkersGo : Nat → List Char → List Nat
  | _, [] => []
  | 0, _ => []
  | fuel + 1, c :: rest =>
    match c, rest with
    | '@', 'c' :: 'o' :: 'n' :: 't' :: 'e' :: 'n' :: 't' :: d :: '@' :: rest2 =>
      if d.isDigit then (d.toNat - 48) :: scanMarkersGo fuel rest2
      else scanMarkersGo fuel rest
    | _, _ => scanMarkersGo fuel rest

/-- Scanner for the regular expression at-content-digit-at, returning the
digit of each non-overlapping match left to right (re.findall semantics). -/
def scanMarkers (l : List Char) : List Nat :=
  scanMarkersGo l.length l

/-- find_answer_in_docid (lines 21-23): the distinct document ids referenced
by markers in the given string.  Python materialises list(set(...)), whose
iteration order for small ints is implementation-defined; the embedding
keeps first-occurrence order, and every theorem below is insensitive to
the order. -/
def findAnswerInDocid (answer : List Char) : List Nat :=
  dedupFirst (scanMarkers answer)

/-- One document of a sample: the raw paragraphs (deleted after phase 0)
and the concatenated content (created in phase 0).  Absent dict keys are
modelled by none. -/
structure Document where
  paragraphs : Option (List (List Char))
  content : Option (List Char)
deriving DecidableEq

/-- An answer label (doc_index, start, end): ints, because the source
computes doc_index as a python int that can be -1 for marker id 0. -/
def AnswerLabel : Type := Int × Int × Int

instance : DecidableEq AnswerLabel := inferInstanceAs (DecidableEq (Int × Int × Int))

/-- A sample of the MRC dataset with the fields 3.gen_mrc_dataset.py reads
or writes.  Derived fields are Option: none models the key being absent. -/
structure Sample where
  question : List Char
  documents : List Document
  supporting_paragraph : List Char
  answer : Option (List Char)
  answer_labels : Option (List AnswerLabel)
  fake_answers : Option (List (List Char))
  ceil_rougel : Option ℚ
deriving DecidableEq

/-- Phase 0 of gen_mrc_dataset (lines 94-96): concatenate each document's
paragraphs into its content; a document without a paragraphs key raises
KeyError (none). -/
def contentsOf (s : Sample) : Option (List (List Char)) :=
  omap (fun d => d.paragraphs.map List.flatten) s.documents

/-- One resolved supporting-paragraph record (found_sup_para, sup_start,
sup_end) as appended at lines 112-117. -/
def SupPara : Type := List Char × Int × Int

instance : DecidableEq SupPara := inferInstanceAs (DecidableEq (List Char × Int × Int))

/-- The fragments of text between markers of document id d that phase 1
keeps: nonempty and free of the at-content pattern, then stripped of the
marker remnant (lines 107-110). -/
def supFrags (supPara : List Char) (d : Nat) : List (List Char) :=
  (((splitOnSeq (markerSeq d) supPara).filter
      fun p => !p.isEmpty && !containsSeq atContentSeq p).map (removeAll (innerMarker d)))

/-- Phase 1 body for one document id (lines 108-117): locate every kept
fragment inside that document's content and record (matched text, start,
end); indexing documents[d-1] may raise (none). -/
def supEntriesFor (contents : List (List Char)) (supPara : List Char) (d : Nat) :
    Option (List SupPara) :=
  omap (fun f =>
      (pyGet contents ((d : Int) - 1)).map fun content =>
        let r := find_best_match_index f content
        (pySlice content r.1 (r.2.1 + 1), r.1, r.2.1))
    (supFrags supPara d)

/-- Phase 1 of gen_mrc_dataset (lines 103-117): the supported_paras dict,
keyed by document id in processing order; a document id whose marker pair
encloses no kept fragment gets no key. -/
def buildSupported (contents : List (List Char)) (supPara : List Char) :
    List Nat → Option (List (Nat × List SupPara))
  | [] => some []
  | d :: rest =>
    (supEntriesFor contents supPara d).bind fun es =>
      (buildSupported contents supPara rest).map fun m =>
        if es.isEmpty then m else (d, es) :: m

/-- Accumulator of the best supporting paragraph for one answer fragment
(lines 139-142): max_rougel, best_start_in_sup_para, best_end_in_sup_para,
best_sup_para_i. -/
structure FragSt where
  maxR : ℚ
  bs : Int
  be : Int
  bi : Option Nat
deriving DecidableEq

/-- One iteration of the loop at lines 143-149. -/
def fragStep (ansStr : List Char) (st : FragSt) (ip : Nat × SupPara) : FragSt :=
  let r := find_best_match_index ansStr ip.2.1
  if st.maxR < r.2.2 then ⟨r.2.2, r.1, r.2.1, some ip.1⟩ else st

/-- The loop at lines 139-149: best supporting paragraph for one answer
fragment, first index winning ties. -/
def fragBest (ansStr : List Char) (paras : List SupPara) : FragSt :=
  paras.enum.foldl (fragStep ansStr) ⟨0, -1, -1, none⟩

/-- Lines 151-154: emit an answer label when the best local match has both
ends distinct from -1, shifting the local offsets by the chosen supporting
paragraph's start offset. -/
def resolveFrag (d : Nat) (paras : List SupPara) (ansStr : List Char) : Option AnswerLabel :=
  let st := fragBest ansStr paras
  if st.bs ≠ -1 ∧ st.be ≠ -1 then
    match st.bi with
    | some i =>
      match paras.get? i with
      | some p => some ((d : Int) - 1, st.bs + p.2.1, st.bs + p.2.1 + (st.be - st.bs))
      | none => none
    | none => none
  else none

/-- The answer fragments phase 2 keeps for document id d (lines 131-136):
split on the marker, strip, keep nonempty fragments free of the at-content
pattern, remove the marker remnant. -/
def ansFrags (answer : List Char) (d : Nat) : List (List Char) :=
  ((((splitOnSeq (markerSeq d) answer).map stripWs).filter
      fun p => !p.isEmpty && !containsSeq atContentSeq p).map (removeAll (innerMarker d)))

/-- Slice of document content named by one answer label, as read by
calc_ceil_rougel (line 79); indexing may raise. -/
def fakeOf (contents : List (List Char)) (lbl : AnswerLabel) : Option (List Char) :=
  (pyGet contents lbl.1).map fun c => pySlice c lbl.2.1 (lbl.2.2 + 1)

/-- State threaded through the phase-2 loop over answer document ids:
answer_texts, answer_labels, and the three sample fields assigned at lines
156-158 (kept at their input values until the first iteration). -/
structure P2 where
  texts : List (List Char)
  labels : List AnswerLabel
  labelsF : Option (List AnswerLabel)
  fakeF : Option (List (List Char))
  ceilF : Option ℚ
deriving DecidableEq

/-- calc_ceil_rougel (lines 77-87) fused with the per-iteration field
assignment (lines 156-158): fake answers are sliced from the labels (may
raise), and ceil_rougel is 0 for an empty fake list. -/
def phase2Step (contents : List (List Char)) (supMap : List (Nat × List SupPara))
    (answer : List Char) (st : P2) (d : Nat) : Option P2 :=
  (lookupKey supMap d).bind fun paras =>
    let frags := ansFrags answer d
    let texts2 := st.texts ++ frags
    let labels2 := st.labels ++ frags.filterMap (resolveFrag d paras)
    (omap (fakeOf contents) labels2).map fun fake =>
      ⟨texts2, labels2, some labels2, some fake,
        some (if fake.isEmpty then 0 else rougeScore fake.flatten texts2.flatten)⟩

/-- The phase-2 loop over answer document ids (lines 124-158). -/
def phase2Fold (contents : List (List Char)) (supMap : List (Nat × List SupPara))
    (answer : List Char) : List Nat → P2 → Option P2
  | [], st => some st
  | d :: ds, st => (phase2Step contents supMap answer st d).bind (phase2Fold contents supMap answer ds)

/-- gen_mrc_dataset (lines 89-158): concatenate paragraphs into contents,
return unchanged otherwise for inference samples, else resolve supporting
paragraphs and answer fragments into answer labels, fake answers and the
ceiling Rouge-L score.  none models an uncaught IndexError/KeyError. -/
def gen_mrc_dataset (s : Sample) : Option Sample :=
  (contentsOf s).bind fun contents =>
    let docs2 := contents.map fun c => Document.mk none (some c)
    match s.answer with
    | none => some { s with documents := docs2 }
    | some ans =>
      (buildSupported contents s.supporting_paragraph
          (findAnswerInDocid s.supporting_paragraph)).bind fun supMap =>
        (phase2Fold contents supMap ans (findAnswerInDocid ans)
            ⟨[], [], s.answer_labels, s.fake_answers, s.ceil_rougel⟩).map fun st =>
          { s with documents := docs2, answer_labels := st.labelsF,
                   fake_answers := st.fakeF, ceil_rougel := st.ceilF }

/-- Invariant of the fuzzy search state: either nothing was found yet
(score 0, window (-1, -1)) or the recorded window is a valid nonempty
window of the container; the moving end bound stays below the length. -/
def FuzzyInv (n : Nat) (st : FuzzySt) : Prop :=
  (st.bestScore = 0 ∧ st.bestStart = -1 ∧ st.bestEnd = -1 ∨
    0 < st.bestScore ∧ 0 ≤ st.bestStart ∧ st.bestStart ≤ st.bestEnd ∧ st.bestEnd < (n : Int)) ∧
  st.lastEnd < (n : Int)

/-- Postcondition of find_best_match_index: the result is the failure
triple, an empty-pattern degenerate hit (0, -1, 1), or a valid window of
the container with positive confidence. -/
def FindPost (doc : List Char) (r : Int × Int × ℚ) : Prop :=
  (r.1 = -1 ∧ r.2.1 = -1 ∧ r.2.2 = 0) ∨ (r.1 = 0 ∧ r.2.1 = -1 ∧ r.2.2 = 1) ∨
    (0 ≤ r.1 ∧ r.1 ≤ r.2.1 ∧ r.2.1 < (doc.length : Int) ∧ 0 < r.2.2)

/-- Confidence that find_best_match_index assigns to one answer fragment
against one supporting paragraph text. -/
def confOf (ansStr : List Char) (p : SupPara) : ℚ :=
  (find_best_match_index ansStr p.1).2.2

/-- Local start returned by find_best_match_index for one supporting
paragraph text. -/
def startOf (ansStr : List Char) (p : SupPara) : Int :=
  (find_best_match_index ansStr p.1).1

/-- Local end returned by find_best_match_index for one supporting
paragraph text. -/
def endOf (ansStr : List Char) (p : SupPara) : Int :=
  (find_best_match_index ansStr p.1).2.1

/-- Labels that phase 2 emits for one answer document id. -/
def docidLabels (supMap : List (Nat × List SupPara)) (answer : List Char) (d : Nat) :
    List AnswerLabel :=
  match lookupKey supMap d with
  | some paras => (ansFrags answer d).filterMap (resolveFrag d paras)
  | none => []

/-- Helper to build an input document from paragraph strings. -/
def sampleDoc (ps : List String) : Document :=
  ⟨some (ps.map String.toList), none⟩

/-- Sample exercising claim C2: the supporting fragment ab does not resolve
in document content xy, so the stored supported paragraph is the empty
text with offsets (-1, -1); the answer fragment is a lone full stop. -/
def c2sample : Sample :=
  ⟨("q").toList, [sampleDoc ["xy"]], ("@content1@ab@content1@").toList,
   some (("@content1@。@content1@").toList), none, none, none⟩

/-- Sample exercising claim C4: the answer references document id 2 but the
supporting paragraph only covers document id 1. -/
def c4sample : Sample :=
  ⟨("q").toList, [sampleDoc ["a"], sampleDoc ["b"]], ("@content1@a@content1@").toList,
   some (("@content2@b@content2@").toList), none, none, none⟩

/-- Second sample for claim C4 (answer references document id 3). -/
def c4wsample : Sample :=
  ⟨("q").toList, [sampleDoc ["a"], sampleDoc ["b"]], ("@content1@a@content1@").toList,
   some (("@content3@b@content3@").toList), none, none, none⟩

/-- Sample exercising claim C7: answer fragments resolve in two distinct
documents. -/
def c7sample : Sample :=
  ⟨("q").toList, [sampleDoc ["ab"], sampleDoc ["cd"]],
   ("@content1@ab@content1@@content2@cd@content2@").toList,
   some (("@content1@a@content1@@content2@c@content2@").toList), none, none, none⟩

/-- The output gen_mrc_dataset produces on c7sample. -/
def c7out : Sample :=
  { c7sample with
      documents := [⟨none, some (("ab").toList)⟩, ⟨none, some (("cd").toList)⟩],
      answer_labels := some [(0, 0, 0), (1, 0, 0)],
      fake_answers := some [("a").toList, ("c").toList],
      ceil_rougel := some 1 }

/-- Sample exercising claim C8: the answer field is present but contains no
document marker, so phase 2 iterates over no document ids. -/
def c8sample : Sample :=
  ⟨("q").toList, [sampleDoc ["a"]], ("@content1@a@content1@").toList,
   some (("nomark").toList), none, none, none⟩

/-- Sample for the amended claim C8: markers are present but neither the
supporting fragment nor the answer fragment resolves anywhere. -/
def c8wsample : Sample :=
  ⟨("q").toList, [sampleDoc ["xy"]], ("@content1@a@content1@").toList,
   some (("@content1@b@content1@").toList), none, none, none⟩

/-- The output gen_mrc_dataset produces on c8wsample. -/
def c8wout : Sample :=
  { c8wsample with
      documents := [⟨none, some (("xy").toList)⟩],
      answer_labels := some [], fake_answers := some [], ceil_rougel := some 0 }

/-- Sample exercising claim C3: marker id 0 makes Python index documents[-1]
(the last document) and emit the label doc index -1. -/
def c3xsample : Sample :=
  ⟨("q").toList, [sampleDoc ["ab"]], ("@content0@ab@content0@").toList,
   some (("@content0@ab@content0@").toList), none, none, none⟩

/-- Well-formed sample for the amended claim C3. -/
def c3wsample : Sample :=
  ⟨("q").toList, [sampleDoc ["ab"]], ("@content1@ab@content1@").toList,
   some (("@content1@ab@content1@").toList), none, none, none⟩

/-- Postcondition of one stored supported-paragraph record against the
document content it was located in: a failed or degenerate match stores
the empty text, and a successful match stores a window of the content
whose length matches the offsets. -/
def EntryPost (content : List Char) (p : SupPara) : Prop :=
  (p.2.1 = -1 ∧ p.2.2 = -1 ∧ p.1 = []) ∨ (p.2.1 = 0 ∧ p.2.2 = -1 ∧ p.1 = []) ∨
    (0 ≤ p.2.1 ∧ p.2.1 ≤ p.2.2 ∧ p.2.2 < (content.length : Int) ∧
      (p.1.length : Int) = p.2.2 + 1 - p.2.1)

/-- The output gen_mrc_dataset produces on c3wsample. -/
def c3wout : Sample :=
  { c3wsample with
      documents := [⟨none, some (("ab").toList)⟩],
      answer_labels := some [(0, 0, 1)],
      fake_answers := some [("ab").toList], ceil_rougel := some 1 }

/-- Sample without an answer field for the claim C10 witness. -/
def c10sample : Sample :=
  ⟨("q").toList, [sampleDoc ["ab", "c"]], ("sup").toList, none, none, none, none⟩

/-- Justification that the cleared-fraction form of rougeScore equals the
Rouge-L F-measure of spec section 4.1 with beta squared = 36/25. -/
theorem rougeScore_eq_formula (cand ref : List Char)
    (h1 : cand.isEmpty = false) (h2 : ref.isEmpty = false)
    (hL : lcsLen cand ref ≠ 0) :
    rougeScore cand ref =
      ((1 + 36/25) * ((lcsLen cand ref : ℚ) / (cand.length : ℚ))
          * ((lcsLen cand ref : ℚ) / (ref.length : ℚ))) /
        (((lcsLen cand ref : ℚ) / (ref.length : ℚ))
          + (36/25) * ((lcsLen cand ref : ℚ) / (cand.length : ℚ))) := by
  have hc : cand ≠ [] := by
    intro h
    rw [h] at h1
    simp at h1
  have hr : ref ≠ [] := by
    intro h
    rw [h] at h2
    simp at h2
  have hc0 : ((cand.length : ℚ)) ≠ 0 := by
    have := List.length_pos.mpr hc
    positivity
  have hr0 : ((ref.length : ℚ)) ≠ 0 := by
    have := List.length_pos.mpr hr
    positivity
  have hL0 : ((lcsLen cand ref : ℚ)) ≠ 0 := by
    exact_mod_cast Nat.cast_ne_zero.mpr hL
  have hLpos : (0 : ℚ) < (lcsLen cand ref : ℚ) := by
    have : 0 < lcsLen cand ref := Nat.pos_of_ne_zero hL
    exact_mod_cast this
  have hcpos : (0 : ℚ) < (cand.length : ℚ) := by
    have := List.length_pos.mpr hc
    exact_mod_cast this
  have hrpos : (0 : ℚ) < (ref.length : ℚ) := by
    have := List.length_pos.mpr hr
    exact_mod_cast this
  have hden : ((lcsLen cand ref : ℚ) / (ref.length : ℚ))
      + (36/25) * ((lcsLen cand ref : ℚ) / (cand.length : ℚ)) ≠ 0 := by
    have t1 : (0:ℚ) < (lcsLen cand ref : ℚ) / (ref.length : ℚ) := by positivity
    have t2 : (0:ℚ) < (36/25 : ℚ) * ((lcsLen cand ref : ℚ) / (cand.length : ℚ)) := by positivity
    linarith
  unfold rougeScore
  rw [if_neg, if_neg hL]
  · rw [Rat.mkRat_eq_div]
    push_cast
    field_simp
    ring
  · simp [h1, h2]

theorem containsSeq_iff_substring (pat : List Char) :
    ∀ l : List Char, containsSeq pat l = true ↔ pat <:+: l := by
  intro l
  induction l with
  | nil =>
    simp [containsSeq, List.isEmpty_iff, List.infix_nil]
  | cons c rest ih =>
    simp [containsSeq, List.infix_cons_iff, ← List.isPrefixOf_iff_prefix, ih, Bool.or_eq_true]

theorem indexOfSeqD_spec (pat : List Char) :
    ∀ l : List Char, containsSeq pat l = true →
      pat <+: l.drop (indexOfSeqD pat l) ∧
      indexOfSeqD pat l + pat.length ≤ l.length ∧
      ∀ j, j < indexOfSeqD pat l → ¬ pat <+: l.drop j := by
  intro l
  induction l with
  | nil =>
    intro h
    simp [containsSeq, List.isEmpty_iff] at h
    subst h
    simp [indexOfSeqD]
  | cons c rest ih =>
    intro h
    by_cases hp : pat.isPrefixOf (c :: rest) = true
    · have hp2 := (List.isPrefixOf_iff_prefix).mp hp
      refine ⟨by simpa [indexOfSeqD, hp] using hp2, ?_, ?_⟩
      · have := hp2.length_le
        simp [indexOfSeqD, hp]
        simpa using this
      · intro j hj
        simp [indexOfSeqD, hp] at hj
    · have h2 : containsSeq pat rest = true := by
        simp [containsSeq, hp] at h
        exact h
      obtain ⟨ih1, ih2, ih3⟩ := ih h2
      have hidx : indexOfSeqD pat (c :: rest) = indexOfSeqD pat rest + 1 := by
        simp [indexOfSeqD, hp]
      refine ⟨?_, ?_, ?_⟩
      · simpa [hidx] using ih1
      · simp [hidx]
        omega
      · intro j hj
        rw [hidx] at hj
        match j with
        | 0 =>
          intro hpre
          exact hp ((List.isPrefixOf_iff_prefix).mpr (by simpa using hpre))
        | k + 1 =>
          have : k < indexOfSeqD pat rest := by omega
          simpa using ih3 k this

/-- Claim C1: for every fragment that occurs as an exact substring of the
container, find_best_match_index returns the first occurrence index as
start, start plus fragment length minus one as end, and confidence 1. -/
theorem claim1_exact_containment (frag cont : List Char) (h : frag <:+: cont) :
    ∃ st : Nat,
      find_best_match_index frag cont =
        ((st : Int), (st : Int) + (frag.length : Int) - 1, 1) ∧
      frag <+: cont.drop st ∧ ∀ j, j < st → ¬ frag <+: cont.drop j := by
  have hc : containsSeq frag cont = true := (containsSeq_iff_substring frag cont).mpr h
  obtain ⟨h1, h2, h3⟩ := indexOfSeqD_spec frag cont hc
  exact ⟨indexOfSeqD frag cont, by simp [find_best_match_index, hc], h1, h3⟩

/-- Witness for claim C1 at fragment bc inside container abcd. -/
theorem claim1_exact_containment_witness :
    ∃ st : Nat,
      find_best_match_index (("bc").toList) (("abcd").toList) =
        ((st : Int), (st : Int) + ((("bc").toList).length : Int) - 1, 1) ∧
      (("bc").toList) <+: (("abcd").toList).drop st ∧
      ∀ j, j < st → ¬ (("bc").toList) <+: (("abcd").toList).drop j :=
  claim1_exact_containment (("bc").toList) (("abcd").toList) ⟨['a'], ['d'], by decide⟩

/-- Claim C9: when none of the exact-containment variants succeeds and the
fragment is at least as long as the container, find_best_match_index
returns (-1, -1, 0): the fuzzy fallback enumerates start positions only in
range(0, len(container) - len(fragment)), which is empty. -/
theorem claim9_no_window (sub doc : List Char)
    (h1 : containsSeq sub doc = false)
    (h2 : sub.getLast? ≠ some stopChar ∨ containsSeq sub.dropLast doc = false)
    (h3 : containsSeq (sub.filter fun c => c ≠ ' ') doc = false)
    (h4 : doc.length ≤ sub.length) :
    find_best_match_index sub doc = (-1, -1, 0) := by
  have hfz : fuzzySearch sub doc = ⟨0, -1, -1, (doc.length : Int) - 1⟩ := by
    unfold fuzzySearch
    rw [Nat.sub_eq_zero_of_le h4]
    rfl
  unfold find_best_match_index
  rw [if_neg (by simp [h1])]
  rw [if_neg ?hc2]
  rw [if_neg (by simpa using h3)]
  · rw [hfz]
    norm_num
  case hc2 =>
    rintro ⟨ha, hb⟩
    rcases h2 with h | h
    · exact h ha
    · rw [h] at hb
      exact Bool.false_ne_true hb

/-- Witness for claim C9 at fragment ab against the shorter container b. -/
theorem claim9_no_window_witness :
    find_best_match_index (("ab").toList) (("b").toList) = (-1, -1, 0) :=
  claim9_no_window (("ab").toList) (("b").toList) (by decide)
    (Or.inl (by decide)) (by decide) (by decide)

/-- Generic foldl invariant preservation with a predicate on elements. -/
theorem foldl_inv {σ α : Type} (f : σ → α → σ) (P : σ → Prop) (Q : α → Prop) :
    ∀ (l : List α) (s : σ), (∀ a ∈ l, Q a) → (∀ s a, P s → Q a → P (f s a)) →
      P s → P (l.foldl f s) := by
  intro l
  induction l with
  | nil => intro s _ _ hs; exact hs
  | cons a rest ih =>
    intro s hq hstep hs
    exact ih (f s a) (fun b hb => hq b (List.mem_cons_of_mem a hb))
      hstep (hstep s a hs (hq a (List.mem_cons_self a rest)))

theorem mem_descRange {hi lo e : Int} (h : e ∈ descRange hi lo) : lo ≤ e ∧ e ≤ hi := by
  rw [descRange] at h
  obtain ⟨k, hk, rfl⟩ := List.mem_map.mp h
  rw [List.mem_range] at hk
  omega

theorem fuzzyInnerStep_inv (sub doc : List Char) (startIdx : Nat) (st : FuzzySt) (e : Int)
    (hst : FuzzyInv doc.length st) (he1 : (startIdx : Int) ≤ e) (he2 : e < (doc.length : Int)) :
    FuzzyInv doc.length (fuzzyInnerStep sub doc startIdx st e) := by
  unfold fuzzyInnerStep
  match hg : doc.get? e.toNat with
  | none => exact hst
  | some c =>
    by_cases hc : c ∈ sub
    · simp only [hc, if_pos]
      by_cases hlt : st.bestScore < rougeScore (pySlice doc (startIdx : Int) (e + 1)) sub
      · rw [if_pos hlt]
        have hpos : 0 < rougeScore (pySlice doc (startIdx : Int) (e + 1)) sub := by
          rcases hst.1 with ⟨h0, _, _⟩ | ⟨h0, _, _, _⟩
          · rw [h0] at hlt; exact hlt
          · exact lt_trans h0 hlt
        exact ⟨Or.inr ⟨hpos, by positivity, he1, he2⟩, he2⟩
      · rw [if_neg hlt]; exact hst
    · simp only [hc, if_neg, if_false]
      exact hst

theorem fuzzyOuterStep_inv (sub doc : List Char) (st : FuzzySt) (startIdx : Nat)
    (hst : FuzzyInv doc.length st) :
    FuzzyInv doc.length (fuzzyOuterStep sub doc st startIdx) := by
  unfold fuzzyOuterStep
  match hg : doc.get? startIdx with
  | none => exact hst
  | some c =>
    by_cases hc : c ∈ sub
    · simp only [hc, if_pos]
      refine foldl_inv _ (FuzzyInv doc.length)
        (fun e => (startIdx : Int) ≤ e ∧ e < (doc.length : Int)) _ st ?_ ?_ hst
      · intro e he
        obtain ⟨h1, h2⟩ := mem_descRange he
        exact ⟨h1, lt_of_le_of_lt h2 hst.2⟩
      · intro s e hP hQ
        exact fuzzyInnerStep_inv sub doc startIdx s e hP hQ.1 hQ.2
    · simp only [hc, if_neg, if_false]
      exact hst

theorem fuzzySearch_inv (sub doc : List Char) : FuzzyInv doc.length (fuzzySearch sub doc) := by
  unfold fuzzySearch
  refine foldl_inv _ (FuzzyInv doc.length) (fun _ => True) _ _ (fun _ _ => trivial) ?_ ?_
  · intro s a hP _
    exact fuzzyOuterStep_inv sub doc s a hP
  · refine ⟨Or.inl ⟨rfl, rfl, rfl⟩, ?_⟩
    simp

theorem indexOfSeqD_nil_pat : ∀ l : List Char, indexOfSeqD [] l = 0
  | [] => rfl
  | _ :: _ => by simp [indexOfSeqD, List.isPrefixOf]

theorem exact_triple_post (pat l : List Char) (h : containsSeq pat l = true) :
    FindPost l ((indexOfSeqD pat l : Int), (indexOfSeqD pat l : Int) + (pat.length : Int) - 1, 1) := by
  obtain ⟨_, h2, _⟩ := indexOfSeqD_spec pat l h
  rcases Nat.eq_zero_or_pos pat.length with hz | hp
  · have hpat : pat = [] := List.length_eq_zero.mp hz
    subst hpat
    rw [indexOfSeqD_nil_pat l]
    exact Or.inr (Or.inl (by norm_num))
  · refine Or.inr (Or.inr ?_)
    dsimp only
    refine ⟨by positivity, by omega, by omega, by norm_num⟩

theorem find_best_match_post (sub doc : List Char) :
    FindPost doc (find_best_match_index sub doc) := by
  unfold find_best_match_index
  split_ifs with h1 h2 h3
  · exact exact_triple_post sub doc h1
  · exact exact_triple_post sub.dropLast doc h2.2
  · exact exact_triple_post (sub.filter fun c => c ≠ ' ') doc h3
  · dsimp only
    split_ifs with h0
    · exact Or.inl ⟨rfl, rfl, rfl⟩
    · obtain ⟨hcase, _⟩ := fuzzySearch_inv sub doc
      rcases hcase with ⟨hs, _, _⟩ | ⟨hs, ha, hb, hc⟩
      · exact absurd hs h0
      · exact Or.inr (Or.inr ⟨ha, hb, hc, hs⟩)

/-- Characterisation of the strict-improvement fold of lines 143-149:
either no paragraph beats the incoming maximum and the state is unchanged,
or the state records the first paragraph attaining the maximal confidence,
every earlier paragraph scoring strictly below it and every paragraph
scoring at most it. -/
theorem fragFold_char (ansStr : List Char) :
    ∀ (l : List SupPara) (n : Nat) (st : FragSt),
      ((l.enumFrom n).foldl (fragStep ansStr) st = st ∧
        ∀ p ∈ l, confOf ansStr p ≤ st.maxR) ∨
      (∃ i p, l.get? i = some p ∧
        (l.enumFrom n).foldl (fragStep ansStr) st =
          ⟨confOf ansStr p, startOf ansStr p, endOf ansStr p, some (n + i)⟩ ∧
        st.maxR < confOf ansStr p ∧
        (∀ j q, j < i → l.get? j = some q → confOf ansStr q < confOf ansStr p) ∧
        (∀ q ∈ l, confOf ansStr q ≤ confOf ansStr p)) := by
  intro l
  induction l with
  | nil =>
    intro n st
    left
    exact ⟨rfl, by simp⟩
  | cons p tl ih =>
    intro n st
    have henum : (p :: tl).enumFrom n = (n, p) :: tl.enumFrom (n + 1) := rfl
    by_cases hlt : st.maxR < confOf ansStr p
    · have hlt0 : st.maxR < (find_best_match_index ansStr p.1).2.2 := hlt
      have hst1 : fragStep ansStr st (n, p) =
          ⟨confOf ansStr p, startOf ansStr p, endOf ansStr p, some n⟩ := by
        simp only [fragStep, confOf, startOf, endOf]
        rw [if_pos hlt0]
      rcases ih (n + 1) (fragStep ansStr st (n, p)) with ⟨hfold, hall⟩ | hcase
      · right
        refine ⟨0, p, rfl, ?_, hlt, by omega, ?_⟩
        · rw [henum, List.foldl_cons, hfold, hst1, Nat.add_zero]
        · intro q hq
          rcases List.mem_cons.mp hq with rfl | hq2
          · exact le_refl _
          · have := hall q hq2
            rw [hst1] at this
            exact this
      · obtain ⟨i, q, hget, hfold, hlt2, hbefore, hall⟩ := hcase
        right
        rw [hst1] at hlt2
        refine ⟨i + 1, q, by simpa using hget, ?_, lt_trans hlt hlt2, ?_, ?_⟩
        · rw [henum, List.foldl_cons, hfold]
          have : n + 1 + i = n + (i + 1) := by omega
          rw [this]
        · intro j r hj hr
          match j with
          | 0 =>
            have hpr : p = r := by simpa using hr
            subst hpr
            exact hlt2
          | k + 1 =>
            have hk : k < i := by omega
            exact hbefore k r hk (by simpa using hr)
        · intro r hr
          rcases List.mem_cons.mp hr with rfl | hr2
          · exact le_of_lt hlt2
          · exact hall r hr2
    · have hst1 : fragStep ansStr st (n, p) = st := by
        simp only [fragStep, confOf] at hlt ⊢
        rw [if_neg hlt]
      rcases ih (n + 1) st with ⟨hfold, hall⟩ | hcase
      · left
        refine ⟨?_, ?_⟩
        · rw [henum, List.foldl_cons, hst1, hfold]
        · intro q hq
          rcases List.mem_cons.mp hq with rfl | hq2
          · exact le_of_not_lt hlt
          · exact hall q hq2
      · obtain ⟨i, q, hget, hfold, hlt2, hbefore, hall⟩ := hcase
        right
        refine ⟨i + 1, q, by simpa using hget, ?_, hlt2, ?_, ?_⟩
        · rw [henum, List.foldl_cons, hst1, hfold]
          have : n + 1 + i = n + (i + 1) := by omega
          rw [this]
        · intro j r hj hr
          match j with
          | 0 =>
            have hpr : p = r := by simpa using hr
            subst hpr
            exact lt_of_le_of_lt (le_of_not_lt hlt) hlt2
          | k + 1 =>
            have hk : k < i := by omega
            exact hbefore k r hk (by simpa using hr)
        · intro r hr
          rcases List.mem_cons.mp hr with rfl | hr2
          · exact le_of_lt (lt_of_le_of_lt (le_of_not_lt hlt) hlt2)
          · exact hall r hr2

/-- Characterisation of fragBest: either nothing scored above 0 and the
initial state survives, or the state records the first supporting
paragraph attaining the maximal confidence. -/
theorem fragBest_char (ansStr : List Char) (paras : List SupPara) :
    (fragBest ansStr paras = ⟨0, -1, -1, none⟩ ∧ ∀ p ∈ paras, confOf ansStr p ≤ 0) ∨
    (∃ i p, paras.get? i = some p ∧
      fragBest ansStr paras = ⟨confOf ansStr p, startOf ansStr p, endOf ansStr p, some i⟩ ∧
      0 < confOf ansStr p ∧
      (∀ j q, j < i → paras.get? j = some q → confOf ansStr q < confOf ansStr p) ∧
      (∀ q ∈ paras, confOf ansStr q ≤ confOf ansStr p)) := by
  have hmain := fragFold_char ansStr paras 0 ⟨0, -1, -1, none⟩
  have hfb : fragBest ansStr paras =
      (paras.enumFrom 0).foldl (fragStep ansStr) ⟨0, -1, -1, none⟩ := rfl
  rcases hmain with ⟨hfold, hall⟩ | ⟨i, p, hget, hfold, hlt, hbef, hall⟩
  · left
    exact ⟨by rw [hfb, hfold], hall⟩
  · right
    refine ⟨i, p, hget, ?_, hlt, hbef, hall⟩
    rw [hfb, hfold]
    simp

/-- Success shape of resolveFrag: an emitted label names a supporting
paragraph of the list, and its offsets are the local find result shifted
by that paragraph's start offset. -/
theorem resolveFrag_some (d : Nat) (paras : List SupPara) (ansStr : List Char)
    (lbl : AnswerLabel) (h : resolveFrag d paras ansStr = some lbl) :
    ∃ i p, paras.get? i = some p ∧ startOf ansStr p ≠ -1 ∧ endOf ansStr p ≠ -1 ∧
      lbl = ((d : Int) - 1, startOf ansStr p + p.2.1,
        startOf ansStr p + p.2.1 + (endOf ansStr p - startOf ansStr p)) := by
  rcases fragBest_char ansStr paras with ⟨heq, _⟩ | ⟨i, p, hget, heq, _, _, _⟩
  · rw [resolveFrag, heq] at h
    simp at h
  · rw [resolveFrag, heq] at h
    dsimp only at h
    by_cases hc : startOf ansStr p ≠ -1 ∧ endOf ansStr p ≠ -1
    · rw [if_pos hc, hget] at h
      exact ⟨i, p, hget, hc.1, hc.2, (Option.some_injective _ h).symm⟩
    · rw [if_neg hc] at h
      exact absurd h (by simp)

/-- Claim C2 (amended): when the best local match of an answer fragment has
both start and end distinct from -1, the resolver picks the first
supporting paragraph attaining the maximal confidence (which is positive)
and emits the label (marker id - 1, local start + paragraph offset, that
start + local span length); when the best confidence is 0 (and in the
degenerate empty-span match, where the best end is -1) no label is
emitted. -/
theorem claim2_best_para_label (d : Nat) (paras : List SupPara) (ansStr : List Char) :
    ((fragBest ansStr paras).bs ≠ -1 ∧ (fragBest ansStr paras).be ≠ -1 →
      ∃ i p, paras.get? i = some p ∧
        (fragBest ansStr paras).maxR = confOf ansStr p ∧
        0 < confOf ansStr p ∧
        (∀ j q, j < i → paras.get? j = some q → confOf ansStr q < confOf ansStr p) ∧
        (∀ q ∈ paras, confOf ansStr q ≤ confOf ansStr p) ∧
        resolveFrag d paras ansStr =
          some ((d : Int) - 1, startOf ansStr p + p.2.1,
            startOf ansStr p + p.2.1 + (endOf ansStr p - startOf ansStr p))) ∧
    ((fragBest ansStr paras).maxR = 0 → resolveFrag d paras ansStr = none) := by
  rcases fragBest_char ansStr paras with ⟨heq, _⟩ | ⟨i, p, hget, heq, hpos, hbef, hall⟩
  · constructor
    · intro hc
      rw [heq] at hc
      simp at hc
    · intro _
      rw [resolveFrag, heq]
      simp
  · constructor
    · intro hc
      rw [heq] at hc
      dsimp only at hc
      refine ⟨i, p, hget, by rw [heq], hpos, hbef, hall, ?_⟩
      rw [resolveFrag, heq]
      dsimp only
      rw [if_pos hc, hget]
    · intro h0
      rw [heq] at h0
      dsimp only at h0
      rw [h0] at hpos
      exact absurd hpos (by simp)

theorem omap_mem {α β : Type} (f : α → Option β) :
    ∀ (l : List α) (r : List β), omap f l = some r → ∀ b ∈ r, ∃ a ∈ l, f a = some b := by
  intro l
  induction l with
  | nil =>
    intro r hr b hb
    rw [omap] at hr
    obtain rfl : ([] : List β) = r := Option.some_injective _ hr
    simp at hb
  | cons a tl ih =>
    intro r hr b hb
    rw [omap] at hr
    cases hfa : f a with
    | none => rw [hfa] at hr; simp at hr
    | some b0 =>
      rw [hfa] at hr
      cases hom : omap f tl with
      | none => rw [hom] at hr; simp at hr
      | some r0 =>
        rw [hom] at hr
        obtain rfl : b0 :: r0 = r := by simpa using hr
        rcases List.mem_cons.mp hb with rfl | hb2
        · exact ⟨a, List.mem_cons_self a tl, hfa⟩
        · obtain ⟨a2, ha2, hfa2⟩ := ih r0 hom b hb2
          exact ⟨a2, List.mem_cons_of_mem a ha2, hfa2⟩

theorem phase2Step_some (contents : List (List Char)) (supMap : List (Nat × List SupPara))
    (answer : List Char) (st : P2) (d : Nat) (st1 : P2)
    (h : phase2Step contents supMap answer st d = some st1) :
    ∃ paras fake, lookupKey supMap d = some paras ∧
      st1.texts = st.texts ++ ansFrags answer d ∧
      st1.labels = st.labels ++ (ansFrags answer d).filterMap (resolveFrag d paras) ∧
      st1.labelsF = some st1.labels ∧
      omap (fakeOf contents) st1.labels = some fake ∧
      st1.fakeF = some fake ∧
      st1.ceilF = some (if fake.isEmpty then 0 else rougeScore fake.flatten st1.texts.flatten) := by
  rw [phase2Step] at h
  cases hlk : lookupKey supMap d with
  | none => rw [hlk] at h; simp at h
  | some paras =>
    rw [hlk, Option.some_bind] at h
    dsimp only at h
    cases hom : omap (fakeOf contents)
        (st.labels ++ (ansFrags answer d).filterMap (resolveFrag d paras)) with
    | none => rw [hom] at h; simp at h
    | some fake =>
      rw [hom] at h
      obtain rfl : (⟨st.texts ++ ansFrags answer d,
          st.labels ++ (ansFrags answer d).filterMap (resolveFrag d paras),
          some (st.labels ++ (ansFrags answer d).filterMap (resolveFrag d paras)),
          some fake,
          some (if fake.isEmpty then 0
            else rougeScore fake.flatten (st.texts ++ ansFrags answer d).flatten)⟩ : P2) = st1 := by
        simpa using h
      exact ⟨paras, fake, rfl, rfl, rfl, rfl, hom, rfl, rfl⟩

theorem phase2Fold_none (contents : List (List Char)) (supMap : List (Nat × List SupPara))
    (answer : List Char) (d : Nat) (hlk : lookupKey supMap d = none) :
    ∀ (ds : List Nat) (st : P2), d ∈ ds → phase2Fold contents supMap answer ds st = none := by
  intro ds
  induction ds with
  | nil => intro st h; simp at h
  | cons a rest ih =>
    intro st hmem
    rw [phase2Fold]
    by_cases had : a = d
    · subst had
      have hstep : phase2Step contents supMap answer st a = none := by
        rw [phase2Step, hlk]
        rfl
      rw [hstep]
      rfl
    · cases hstep : phase2Step contents supMap answer st a with
      | none => rfl
      | some st1 =>
        have hd : d ∈ rest := by
          rcases List.mem_cons.mp hmem with h | h
          · exact absurd h.symm had
          · exact h
        simpa using ih st1 hd

theorem phase2Fold_char (contents : List (List Char)) (supMap : List (Nat × List SupPara))
    (answer : List Char) :
    ∀ (ds : List Nat) (st st' : P2), phase2Fold contents supMap answer ds st = some st' →
      st'.labels = st.labels ++ ds.flatMap (docidLabels supMap answer) ∧
      (ds = [] → st' = st) ∧
      (ds ≠ [] → ∃ fake, st'.labelsF = some st'.labels ∧
        omap (fakeOf contents) st'.labels = some fake ∧ st'.fakeF = some fake ∧
        st'.ceilF = some (if fake.isEmpty then 0 else rougeScore fake.flatten st'.texts.flatten)) := by
  intro ds
  induction ds with
  | nil =>
    intro st st' h
    obtain rfl : st = st' := by simpa [phase2Fold] using h
    exact ⟨by simp, fun _ => rfl, fun h => absurd rfl h⟩
  | cons a rest ih =>
    intro st st' h
    rw [phase2Fold] at h
    cases hstep : phase2Step contents supMap answer st a with
    | none => rw [hstep] at h; simp at h
    | some st1 =>
      rw [hstep] at h
      have h2 : phase2Fold contents supMap answer rest st1 = some st' := by simpa using h
      obtain ⟨paras, fake1, hlk, htx, hlb, hlf, hom, hff, hcf⟩ :=
        phase2Step_some contents supMap answer st a st1 hstep
      obtain ⟨ihl, ihnil, ihcons⟩ := ih st1 st' h2
      refine ⟨?_, ?_, ?_⟩
      · rw [ihl, hlb]
        have hd : docidLabels supMap answer a =
            (ansFrags answer a).filterMap (resolveFrag a paras) := by
          rw [docidLabels, hlk]
        rw [List.flatMap_cons, hd, List.append_assoc]
      · intro hfalse
        simp at hfalse
      · intro _
        rcases List.eq_nil_or_concat rest with hrest | _
        all_goals {
          by_cases hr0 : rest = []
          · subst hr0
            have hst : st' = st1 := ihnil rfl
            subst hst
            exact ⟨fake1, hlf, hom, hff, hcf⟩
          · exact ihcons hr0
        }

/-- Destructuring of a successful run of gen_mrc_dataset on a training
sample: the intermediate contents, supported-paragraph map and phase-2
state exist, and the output is the input with contents installed and the
three derived fields taken from the final phase-2 state. -/
theorem gen_success_shape (s : Sample) (ans : List Char) (out : Sample)
    (h1 : s.answer = some ans) (h2 : gen_mrc_dataset s = some out) :
    ∃ cs supMap st', contentsOf s = some cs ∧
      buildSupported cs s.supporting_paragraph (findAnswerInDocid s.supporting_paragraph) =
        some supMap ∧
      phase2Fold cs supMap ans (findAnswerInDocid ans)
        ⟨[], [], s.answer_labels, s.fake_answers, s.ceil_rougel⟩ = some st' ∧
      out = { s with
          documents := cs.map (fun c => Document.mk none (some c)),
          answer_labels := st'.labelsF, fake_answers := st'.fakeF,
          ceil_rougel := st'.ceilF } := by
  rw [gen_mrc_dataset] at h2
  cases hcs : contentsOf s with
  | none => rw [hcs] at h2; simp at h2
  | some cs =>
    rw [hcs, Option.some_bind] at h2
    dsimp only at h2
    rw [h1] at h2
    dsimp only at h2
    cases hbs : buildSupported cs s.supporting_paragraph
        (findAnswerInDocid s.supporting_paragraph) with
    | none => rw [hbs] at h2; simp at h2
    | some supMap =>
      rw [hbs, Option.some_bind] at h2
      cases hpf : phase2Fold cs supMap ans (findAnswerInDocid ans)
          ⟨[], [], s.answer_labels, s.fake_answers, s.ceil_rougel⟩ with
      | none => rw [hpf] at h2; simp at h2
      | some st' =>
        rw [hpf] at h2
        refine ⟨cs, supMap, st', rfl, hbs, hpf, ?_⟩
        have hout := Option.some_injective _ (by simpa using h2 :
          some _ = some out)
        rw [← hout, h1]

/-- Claim C2 counterexample: on c2sample the lone answer fragment (the full
stop) attains best confidence 1 (nonzero, via the trailing-stop variant
matching the empty supported-paragraph text at (0, -1)), yet no label is
emitted and the sample ends with an empty answer_labels list. -/
theorem claim2_counterexample :
    buildSupported [("xy").toList] (("@content1@ab@content1@").toList) [1] =
      some [(1, [(([] : List Char), -1, -1)])] ∧
    ansFrags (("@content1@。@content1@").toList) 1 = [("。").toList] ∧
    (fragBest (("。").toList) [(([] : List Char), -1, -1)]).maxR = 1 ∧
    resolveFrag 1 [(([] : List Char), -1, -1)] (("。").toList) = none ∧
    (gen_mrc_dataset c2sample).map Sample.answer_labels = some (some []) := by
  refine ⟨by decide, by decide, by decide, by decide, by decide⟩

/-- Witness for the amended claim C2 at a supporting paragraph list whose
single entry holds text bc with offsets (1, 2) and the answer fragment
bc. -/
theorem claim2_best_para_label_witness :
    ∃ i p, ([((("bc").toList : List Char), (1 : Int), (2 : Int))] : List SupPara).get? i =
        some p ∧
      (fragBest (("bc").toList) [((("bc").toList : List Char), (1 : Int), (2 : Int))]).maxR =
        confOf (("bc").toList) p ∧
      0 < confOf (("bc").toList) p ∧
      (∀ j q, j < i →
        ([((("bc").toList : List Char), (1 : Int), (2 : Int))] : List SupPara).get? j = some q →
        confOf (("bc").toList) q < confOf (("bc").toList) p) ∧
      (∀ q ∈ ([((("bc").toList : List Char), (1 : Int), (2 : Int))] : List SupPara),
        confOf (("bc").toList) q ≤ confOf (("bc").toList) p) ∧
      resolveFrag 1 [((("bc").toList : List Char), (1 : Int), (2 : Int))] (("bc").toList) =
        some ((1 : Int) - 1, startOf (("bc").toList) p + p.2.1,
          startOf (("bc").toList) p + p.2.1 +
            (endOf (("bc").toList) p - startOf (("bc").toList) p)) :=
  (claim2_best_para_label 1 [((("bc").toList : List Char), (1 : Int), (2 : Int))]
    (("bc").toList)).1 (by decide)

/-- Claim C4 (amended): when the answer references a document id that has no
entry in the supported-paragraphs dict, gen_mrc_dataset raises an uncaught
KeyError at supported_paras[ans_in_docid]: sample processing aborts and no
output record is produced (none), instead of skipping the document id. -/
theorem claim4_missing_support_aborts (s : Sample) (ans : List Char)
    (cs : List (List Char)) (supMap : List (Nat × List SupPara)) (d : Nat)
    (h1 : s.answer = some ans) (h2 : contentsOf s = some cs)
    (h3 : buildSupported cs s.supporting_paragraph (findAnswerInDocid s.supporting_paragraph) =
      some supMap)
    (h4 : d ∈ findAnswerInDocid ans) (h5 : lookupKey supMap d = none) :
    gen_mrc_dataset s = none := by
  rw [gen_mrc_dataset, h2, Option.some_bind]
  dsimp only
  rw [h1]
  dsimp only
  rw [h3, Option.some_bind, phase2Fold_none cs supMap ans d h5 _ _ h4]
  rfl

/-- Claim C4 counterexample: on c4sample (answer in document 2, support
only for document 1) the resolver does not skip: it aborts with a
KeyError, modelled as none. -/
theorem claim4_counterexample : gen_mrc_dataset c4sample = none := by decide

/-- Witness for the amended claim C4 at c4wsample. -/
theorem claim4_missing_support_aborts_witness : gen_mrc_dataset c4wsample = none :=
  claim4_missing_support_aborts c4wsample (("@content3@b@content3@").toList)
    [("a").toList, ("b").toList] [(1, [(("a").toList, 0, 0)])] 3
    (by decide) (by decide) (by decide) (by decide) (by decide)

/-- Claim C7: a successful run of gen_mrc_dataset ends with answer_labels
equal to the concatenation, over every answer document id, of the labels
emitted for that document id: labels from all matched documents are
retained, not only those of the last-processed id. -/
theorem claim7_labels_across_docs (s : Sample) (ans : List Char) (out : Sample)
    (h1 : s.answer = some ans) (h2 : gen_mrc_dataset s = some out)
    (h3 : findAnswerInDocid ans ≠ []) :
    ∃ cs supMap, contentsOf s = some cs ∧
      buildSupported cs s.supporting_paragraph (findAnswerInDocid s.supporting_paragraph) =
        some supMap ∧
      out.answer_labels = some ((findAnswerInDocid ans).flatMap (docidLabels supMap ans)) := by
  obtain ⟨cs, supMap, st', hcs, hbs, hpf, hout⟩ := gen_success_shape s ans out h1 h2
  obtain ⟨hlab, _, hcons⟩ := phase2Fold_char cs supMap ans _ _ _ hpf
  obtain ⟨fake, hlf, _, _, _⟩ := hcons h3
  refine ⟨cs, supMap, hcs, hbs, ?_⟩
  rw [hout]
  dsimp only
  rw [hlf, hlab]
  simp

/-- Witness for claim C7 at c7sample, whose answer fragments resolve in the
two distinct documents 1 and 2. -/
theorem claim7_labels_across_docs_witness :
    ∃ cs supMap, contentsOf c7sample = some cs ∧
      buildSupported cs c7sample.supporting_paragraph
        (findAnswerInDocid c7sample.supporting_paragraph) = some supMap ∧
      c7out.answer_labels =
        some ((findAnswerInDocid (("@content1@a@content1@@content2@c@content2@").toList)).flatMap
          (docidLabels supMap (("@content1@a@content1@@content2@c@content2@").toList))) :=
  claim7_labels_across_docs c7sample (("@content1@a@content1@@content2@c@content2@").toList)
    c7out (by decide) (by decide) (by decide)

/-- Claim C8 (amended): when the answer carries at least one document
marker and processing completes with no label emitted, the sample ends
with empty fake_answers and ceil_rougel 0. -/
theorem claim8_empty_resolution (s : Sample) (ans : List Char) (out : Sample)
    (h1 : s.answer = some ans) (h2 : gen_mrc_dataset s = some out)
    (h3 : findAnswerInDocid ans ≠ []) (h4 : out.answer_labels = some []) :
    out.fake_answers = some [] ∧ out.ceil_rougel = some 0 := by
  obtain ⟨cs, supMap, st', hcs, hbs, hpf, hout⟩ := gen_success_shape s ans out h1 h2
  obtain ⟨hlab, _, hcons⟩ := phase2Fold_char cs supMap ans _ _ _ hpf
  obtain ⟨fake, hlf, hom, hff, hcf⟩ := hcons h3
  rw [hout] at h4 ⊢
  dsimp only at h4 ⊢
  rw [hlf] at h4
  have hlabels : st'.labels = [] := Option.some_injective _ h4
  rw [hlabels, omap] at hom
  have hfake : fake = [] := (Option.some_injective _ hom).symm
  subst hfake
  rw [hff, hcf]
  exact ⟨rfl, by simp⟩

/-- Claim C8 counterexample: on c8sample the answer has no document marker,
so zero answer fragments resolve, yet none of the three fields is set at
all (none), rather than answer_labels = [], fake_answers = [] and
ceil_rougel = 0. -/
theorem claim8_counterexample :
    (gen_mrc_dataset c8sample).map Sample.answer_labels = some none ∧
    (gen_mrc_dataset c8sample).map Sample.fake_answers = some none ∧
    (gen_mrc_dataset c8sample).map Sample.ceil_rougel = some none := by
  refine ⟨by decide, by decide, by decide⟩

/-- Witness for the amended claim C8 at c8wsample. -/
theorem claim8_empty_resolution_witness :
    c8wout.fake_answers = some [] ∧ c8wout.ceil_rougel = some 0 :=
  claim8_empty_resolution c8wsample (("@content1@b@content1@").toList) c8wout
    (by decide) (by decide) (by decide) (by decide)

theorem pySlice_to_zero (l : List Char) (a : Int) : pySlice l a 0 = [] := by
  have h0 : pyIdx l 0 = 0 := by
    rw [pyIdx, if_neg (by omega)]
    simp
  rw [pySlice, h0]
  simp

theorem pySlice_window_length (l : List Char) (s e : Int)
    (h1 : 0 ≤ s) (h2 : s ≤ e) (h3 : e < (l.length : Int)) :
    ((pySlice l s (e + 1)).length : Int) = e + 1 - s := by
  rw [pySlice, pyIdx, pyIdx, if_neg (by omega : ¬ e + 1 < 0), if_neg (by omega : ¬ s < 0)]
  rw [List.length_drop, List.length_take]
  omega

theorem entry_post (f content : List Char) :
    EntryPost content
      (pySlice content (find_best_match_index f content).1
          ((find_best_match_index f content).2.1 + 1),
        (find_best_match_index f content).1, (find_best_match_index f content).2.1) := by
  rcases find_best_match_post f content with ⟨h1, h2, _⟩ | ⟨h1, h2, _⟩ | ⟨h1, h2, h3, _⟩
  · left
    refine ⟨h1, h2, ?_⟩
    rw [h1, h2]
    norm_num
    exact pySlice_to_zero content (-1)
  · right; left
    refine ⟨h1, h2, ?_⟩
    rw [h1, h2]
    norm_num
    exact pySlice_to_zero content 0
  · right; right
    exact ⟨h1, h2, h3, pySlice_window_length content _ _ h1 h2 h3⟩

theorem supEntriesFor_post (contents : List (List Char)) (supPara : List Char) (d : Nat)
    (es : List SupPara) (h : supEntriesFor contents supPara d = some es) (hne : es ≠ []) :
    ∃ content, pyGet contents ((d : Int) - 1) = some content ∧
      ∀ p ∈ es, EntryPost content p := by
  rw [supEntriesFor] at h
  cases hpg : pyGet contents ((d : Int) - 1) with
  | none =>
    exfalso
    obtain ⟨p, hp⟩ := List.exists_mem_of_ne_nil es hne
    obtain ⟨f, _, hfa⟩ := omap_mem _ _ _ h p hp
    rw [hpg] at hfa
    simp at hfa
  | some content =>
    refine ⟨content, rfl, ?_⟩
    intro p hp
    obtain ⟨f, _, hfa⟩ := omap_mem _ _ _ h p hp
    rw [hpg] at hfa
    have hp2 := Option.some_injective _ hfa
    rw [← hp2]
    exact entry_post f content

theorem buildSupported_post (contents : List (List Char)) (supPara : List Char) :
    ∀ (ds : List Nat) (m : List (Nat × List SupPara)),
      buildSupported contents supPara ds = some m →
      ∀ d paras, lookupKey m d = some paras →
        ∃ content, pyGet contents ((d : Int) - 1) = some content ∧
          ∀ p ∈ paras, EntryPost content p := by
  intro ds
  induction ds with
  | nil =>
    intro m h d paras hlk
    obtain rfl : ([] : List (Nat × List SupPara)) = m := by simpa [buildSupported] using h
    simp [lookupKey] at hlk
  | cons a rest ih =>
    intro m h d paras hlk
    rw [buildSupported] at h
    cases hse : supEntriesFor contents supPara a with
    | none => rw [hse] at h; simp at h
    | some es =>
      rw [hse, Option.some_bind] at h
      cases hbs : buildSupported contents supPara rest with
      | none => rw [hbs] at h; simp at h
      | some m0 =>
        rw [hbs] at h
        have hm : (if es.isEmpty then m0 else (a, es) :: m0) = m := by simpa using h
        by_cases hes : es.isEmpty
        · rw [if_pos hes] at hm
          subst hm
          exact ih m0 hbs d paras hlk
        · rw [if_neg hes] at hm
          subst hm
          rw [lookupKey] at hlk
          by_cases had : a = d
          · rw [if_pos had] at hlk
            have hep : es = paras := Option.some_injective _ hlk
            subst had
            rw [← hep]
            exact supEntriesFor_post contents supPara a es hse
              (by simpa [List.isEmpty_iff] using hes)
          · rw [if_neg had] at hlk
            exact ih m0 hbs d paras hlk

/-- Claim C3 (amended): on a training sample whose answer markers all carry
ids at least 1, every answer label (d, s, e) that a completed run emits
satisfies 0 ≤ d < number of documents and 0 ≤ s ≤ e < length of that
document's content. -/
theorem claim3_label_validity (s : Sample) (ans : List Char) (out : Sample)
    (h1 : s.answer = some ans) (h2 : s.answer_labels = none)
    (h3 : ∀ d ∈ findAnswerInDocid ans, 1 ≤ d) (h4 : gen_mrc_dataset s = some out) :
    ∃ cs, contentsOf s = some cs ∧
      ∀ L, out.answer_labels = some L → ∀ lbl ∈ L,
        0 ≤ lbl.1 ∧ lbl.1 < (cs.length : Int) ∧ 0 ≤ lbl.2.1 ∧ lbl.2.1 ≤ lbl.2.2 ∧
        lbl.2.2 < ((cs.getD lbl.1.toNat []).length : Int) := by
  obtain ⟨cs, supMap, st', hcs, hbs, hpf, hout⟩ := gen_success_shape s ans out h1 h4
  refine ⟨cs, hcs, ?_⟩
  intro L hL lbl hmem
  obtain ⟨hlab, hnil, hcons⟩ := phase2Fold_char cs supMap ans _ _ _ hpf
  by_cases hids : findAnswerInDocid ans = []
  · exfalso
    have hst := hnil hids
    rw [hout] at hL
    dsimp only at hL
    rw [hst] at hL
    dsimp only at hL
    rw [h2] at hL
    simp at hL
  · obtain ⟨fake, hlf, _, _, _⟩ := hcons hids
    rw [hout] at hL
    dsimp only at hL
    rw [hlf] at hL
    have hLlab : st'.labels = L := Option.some_injective _ hL
    rw [← hLlab, hlab] at hmem
    dsimp only at hmem
    rw [List.nil_append] at hmem
    obtain ⟨d, hd, hmem2⟩ := List.mem_flatMap.mp hmem
    cases hdl : lookupKey supMap d with
    | none => rw [docidLabels, hdl] at hmem2; simp at hmem2
    | some paras =>
      rw [docidLabels, hdl] at hmem2
      obtain ⟨frag, _, hres⟩ := List.mem_filterMap.mp hmem2
      obtain ⟨i, p, hget, hsne, hene, hlbl⟩ := resolveFrag_some d paras frag lbl hres
      obtain ⟨content, hpg, hep⟩ := buildSupported_post cs s.supporting_paragraph _ supMap hbs d paras hdl
      have hpmem : p ∈ paras := List.get?_mem hget
      have hEP := hep p hpmem
      have hFP := find_best_match_post frag p.1
      rcases hFP with ⟨ha, _, _⟩ | ⟨_, hb, _⟩ | ⟨ha, hb, hc, _⟩
      · exact absurd ha hsne
      · exact absurd hb hene
      · have hd1 : 1 ≤ d := h3 d hd
        rw [pyGet, if_pos (by omega : (0 : Int) ≤ (d : Int) - 1)] at hpg
        obtain ⟨hlt, _⟩ := List.get?_eq_some.mp hpg
        have hgd : cs.getD ((d : Int) - 1).toNat [] = content := by
          rw [List.getD_eq_getElem?_getD]
          rw [← List.get?_eq_getElem?, hpg]
          rfl
        rcases hEP with ⟨_, _, hp3⟩ | ⟨_, _, hp3⟩ | ⟨hp1, hp2, hp3, hp4⟩
        · rw [hp3] at ha hb hc
          simp at hc
          omega
        · rw [hp3] at ha hb hc
          simp at hc
          omega
        · rw [hlbl]
          dsimp only
          have hsS : startOf frag p = (find_best_match_index frag p.1).1 := rfl
          have heS : endOf frag p = (find_best_match_index frag p.1).2.1 := rfl
          rw [hsS, heS]
          refine ⟨by omega, ?_, by omega, by omega, ?_⟩
          · have : ((d : Int) - 1).toNat < cs.length := hlt
            omega
          · rw [hgd]
            omega

/-- Claim C3 counterexample: on c3xsample (markers with id 0) the resolver
locates everything inside documents[-1] (Python negative indexing of the
last document) and emits the label (-1, 0, 1), whose doc index -1 is not a
valid zero-based document index. -/
theorem claim3_counterexample :
    (gen_mrc_dataset c3xsample).map Sample.answer_labels =
      some (some [((-1 : Int), 0, 1)]) ∧ ((-1 : Int) < 0) := by
  exact ⟨by decide, by decide⟩

/-- Witness for the amended claim C3 at c3wsample. -/
theorem claim3_label_validity_witness :
    ∃ cs, contentsOf c3wsample = some cs ∧
      ∀ L, c3wout.answer_labels = some L → ∀ lbl ∈ L,
        0 ≤ lbl.1 ∧ lbl.1 < (cs.length : Int) ∧ 0 ≤ lbl.2.1 ∧ lbl.2.1 ≤ lbl.2.2 ∧
        lbl.2.2 < ((cs.getD lbl.1.toNat []).length : Int) :=
  claim3_label_validity c3wsample (("@content1@ab@content1@").toList) c3wout
    (by decide) (by decide) (by decide) (by decide)

theorem selectLoop_bound (paras : List (List String)) (M : Nat) :
    ∀ (infos : List (ℚ × Nat × Nat)) (acc : Nat), acc ≤ M →
      acc + (((selectLoop paras M infos acc).1).map
          (fun i => (paras.getD i []).length + 1)).sum +
        (match (selectLoop paras M infos acc).2 with
          | none => 0
          | some pc => (pyTakeTo pc.2 (paras.getD pc.1 [])).length) ≤ M := by
  intro infos
  induction infos with
  | nil =>
    intro acc hacc
    simpa [selectLoop] using hacc
  | cons info rest ih =>
    intro acc hacc
    rw [selectLoop]
    dsimp only
    by_cases hle : acc + (paras.getD info.2.2 []).length + 1 ≤ M
    · rw [if_pos hle]
      dsimp only
      have hr := ih (acc + (paras.getD info.2.2 []).length + 1) hle
      simp only [List.map_cons, List.sum_cons]
      omega
    · rw [if_neg hle]
      dsimp only
      simp only [List.map_nil, List.sum_nil]
      rw [pyTakeTo]
      split_ifs with hk
      · rw [List.length_take]
        omega
      · rw [List.length_take]
        omega

theorem map_length_splitter : ∀ ps : List (List String),
    List.map List.length (ps.map (fun p => p ++ [splitterTok])) =
      ps.map (fun p => p.length + 1) := by
  intro ps
  induction ps with
  | nil => rfl
  | cons p t ih => simp [ih]

theorem map_comp_snd : ∀ entries : List (Nat × List String),
    (entries.map Prod.snd).map (fun p : List String => p.length + 1) =
      entries.map (fun e => e.2.length + 1) := by
  intro entries
  induction entries with
  | nil => rfl
  | cons e t ih => simp [ih]

theorem extractPassage_length (title : List String) (paras : List (List String))
    (scores : List ℚ) (M : Nat) :
    (extractPassage title paras scores M).length =
      title.length +
        ((passageEntries title paras scores M).map (fun e => e.2.length + 1)).sum := by
  rw [extractPassage, List.length_dropLast, List.length_flatten, map_length_splitter]
  rw [List.map_cons, List.sum_cons, map_comp_snd]
  omega

theorem selectLoop_shape (paras : List (List String)) (M : Nat)
    (infos : List (ℚ × Nat × Nat)) (acc : Nat) (hne : infos ≠ []) :
    (selectLoop paras M infos acc).1 ≠ [] ∨ (selectLoop paras M infos acc).2 ≠ none := by
  match infos with
  | [] => exact absurd rfl hne
  | info :: rest =>
    rw [selectLoop]
    dsimp only
    by_cases hle : acc + (paras.getD info.2.2 []).length + 1 ≤ M
    · rw [if_pos hle]
      left
      simp
    · rw [if_neg hle]
      right
      simp

/-- Claim C5 (amended): whenever the budget M is at least the title length
plus one, the final selected passage has total token length (splitters
included, trailing splitter removed) at most M; and the selected set
(counting the truncated overflow paragraph) is nonempty whenever the
document has at least one paragraph (with one score per paragraph). -/
theorem claim5_budget (title : List String) (paras : List (List String))
    (scores : List ℚ) (M : Nat) (h : title.length + 1 ≤ M) :
    (extractPassage title paras scores M).length ≤ M ∧
    (paras ≠ [] → scores.length = paras.length →
      passageEntries title paras scores M ≠ []) := by
  constructor
  · rw [extractPassage_length]
    have hb := selectLoop_bound paras M (sortInfos (paraInfos paras scores)) (title.length + 1) h
    have hss : selectLoop paras M (sortInfos (paraInfos paras scores)) (title.length + 1) =
        selectState title paras scores M := rfl
    rw [hss] at hb
    rw [passageEntries]
    rw [List.map_append, List.sum_append, List.map_map]
    have hperm : ((List.insertionSort (fun a b => a ≤ b)
          (selectState title paras scores M).1).map
        (fun i => (paras.getD i []).length + 1)).sum =
        (((selectState title paras scores M).1).map
          (fun i => (paras.getD i []).length + 1)).sum :=
      ((List.perm_insertionSort (fun a b => a ≤ b)
        (selectState title paras scores M).1).map _).sum_eq
    have hcomp : ((List.insertionSort (fun a b => a ≤ b)
          (selectState title paras scores M).1).map
        ((fun e : Nat × List String => e.2.length + 1) ∘ fun i => (i, paras.getD i []))) =
        ((List.insertionSort (fun a b => a ≤ b)
          (selectState title paras scores M).1).map
        (fun i => (paras.getD i []).length + 1)) := rfl
    rw [hcomp, hperm]
    rcases hsel : (selectState title paras scores M).2 with _ | pc
    · rw [hsel] at hb
      dsimp only at hb ⊢
      simp only [List.map_nil, List.sum_nil]
      omega
    · rw [hsel] at hb
      dsimp only at hb ⊢
      simp only [List.map_cons, List.map_nil, List.sum_cons, List.sum_nil]
      omega
  · intro hp hs
    have hzip : (paras.zip scores).length = paras.length := by
      rw [List.length_zip, hs]
      omega
    have hinfos : paraInfos paras scores ≠ [] := by
      rw [paraInfos]
      intro hcon
      have h0 := congrArg List.length hcon
      simp only [List.length_map, List.enum_length, List.length_nil] at h0
      rw [hzip] at h0
      exact hp (List.length_eq_zero.mp h0)
    have hsorted : sortInfos (paraInfos paras scores) ≠ [] := by
      intro hcon
      have h0 := congrArg List.length hcon
      rw [sortInfos] at h0
      rw [(List.perm_insertionSort leInfo (paraInfos paras scores)).length_eq] at h0
      exact hinfos (List.length_eq_zero.mp (by simpa using h0))
    rcases selectLoop_shape paras M (sortInfos (paraInfos paras scores))
        (title.length + 1) hsorted with hids | hlast
    · rw [passageEntries]
      intro hcon
      rcases List.append_eq_nil.mp hcon with ⟨h1, _⟩
      have h2 := congrArg List.length h1
      simp only [List.length_map, List.length_nil] at h2
      rw [(List.perm_insertionSort (fun a b => a ≤ b)
        (selectState title paras scores M).1).length_eq] at h2
      exact hids (List.length_eq_zero.mp h2)
    · rw [passageEntries]
      intro hcon
      rcases List.append_eq_nil.mp hcon with ⟨_, h2⟩
      rcases hsel : (selectState title paras scores M).2 with _ | pc
      · exact hlast hsel
      · rw [hsel] at h2
        simp at h2

/-- Claim C5 counterexample: with title of length 1, a single two-token
paragraph and budget M = 1 < len(title) + 1, the passage still keeps the
title and two splitter slots, giving length 2 > M. -/
theorem claim5_counterexample :
    ¬ (extractPassage [("t" : String)] [[("b" : String), "c"]] [1] 1).length ≤ 1 := by
  decide

/-- Witness for the amended claim C5 at a one-paragraph document within
budget. -/
theorem claim5_budget_witness :
    (extractPassage [("t" : String)] [[("a" : String)]] [1] 4).length ≤ 4 ∧
    ([[("a" : String)]] ≠ ([] : List (List String)) → ([1] : List ℚ).length = [[("a" : String)]].length →
      passageEntries [("t" : String)] [[("a" : String)]] [1] 4 ≠ []) :=
  claim5_budget [("t" : String)] [[("a" : String)]] [1] 4 (by decide)

/-- Claim C6 (amended): the fully accepted paragraphs appear in the final
passage in ascending original-index order (selected_para_ids.sort());
when an overflow paragraph was truncated, it is appended last regardless
of its original index, so only the entries before it are sorted, and the
final entry carries the truncated paragraph's id. -/
theorem claim6_order (title : List String) (paras : List (List String))
    (scores : List ℚ) (M : Nat) :
    ((selectState title paras scores M).2 = none →
      List.Sorted (fun a b => a ≤ b)
        ((passageEntries title paras scores M).map Prod.fst)) ∧
    (∀ pc, (selectState title paras scores M).2 = some pc →
      List.Sorted (fun a b => a ≤ b)
        (((passageEntries title paras scores M).map Prod.fst).dropLast) ∧
      ((passageEntries title paras scores M).map Prod.fst).getLast? = some pc.1) := by
  haveI htot : IsTotal Nat (fun a b => a ≤ b) := ⟨fun a b => Nat.le_total a b⟩
  haveI htrans : IsTrans Nat (fun a b => a ≤ b) := ⟨fun a b c => Nat.le_trans⟩
  have hsorted := List.sorted_insertionSort (fun a b => a ≤ b)
    (selectState title paras scores M).1
  have hmapfst : ((List.insertionSort (fun a b => a ≤ b)
        (selectState title paras scores M).1).map
          (fun i => (i, paras.getD i []))).map Prod.fst =
      List.insertionSort (fun a b => a ≤ b) (selectState title paras scores M).1 := by
    rw [List.map_map]
    exact List.map_id _
  constructor
  · intro hnone
    rw [passageEntries]
    rw [hnone]
    simp only [List.append_nil, List.map_append]
    rw [hmapfst]
    simpa using hsorted
  · intro pc hsome
    rw [passageEntries, hsome]
    simp only [List.map_append, List.map_cons, List.map_nil]
    rw [hmapfst]
    constructor
    · rw [List.dropLast_concat]
      exact hsorted
    · rw [List.getLast?_concat]

/-- Claim C6 counterexample: with scores 3, 1, 2 the relevance order is
paragraph 0, 2, 1; paragraphs 0 and 2 fit the budget 7, paragraph 1 is
truncated and appended last, so the passage paragraph indices are
[0, 2, 1], not ascending. -/
theorem claim6_counterexample :
    ((passageEntries [("t" : String)] [[("a" : String)], ["b1", "b2"], ["c"]]
        [3, 1, 2] 7).map Prod.fst = [0, 2, 1]) ∧
    ¬ List.Sorted (fun a b => a ≤ b)
      ((passageEntries [("t" : String)] [[("a" : String)], ["b1", "b2"], ["c"]]
        [3, 1, 2] 7).map Prod.fst) := by
  exact ⟨by decide, by decide⟩

/-- Witness for the amended claim C6 at the truncated-overflow document of
the counterexample: the entries before the truncated one are sorted and
the final entry carries the truncated paragraph id 1. -/
theorem claim6_order_witness :
    List.Sorted (fun a b => a ≤ b)
      (((passageEntries [("t" : String)] [[("a" : String)], ["b1", "b2"], ["c"]]
        [3, 1, 2] 7).map Prod.fst).dropLast) ∧
    ((passageEntries [("t" : String)] [[("a" : String)], ["b1", "b2"], ["c"]]
        [3, 1, 2] 7).map Prod.fst).getLast? = some (1, (-1 : Int)).1 :=
  (claim6_order [("t" : String)] [[("a" : String)], ["b1", "b2"], ["c"]] [3, 1, 2] 7).2
    (1, (-1 : Int)) (by decide)

theorem omap_length {α β : Type} (f : α → Option β) :
    ∀ (l : List α) (r : List β), omap f l = some r → r.length = l.length := by
  intro l
  induction l with
  | nil =>
    intro r h
    obtain rfl : ([] : List β) = r := by simpa [omap] using h
    rfl
  | cons a tl ih =>
    intro r h
    rw [omap] at h
    cases hfa : f a with
    | none => rw [hfa] at h; simp at h
    | some b =>
      rw [hfa] at h
      cases hom : omap f tl with
      | none => rw [hom] at h; simp at h
      | some r0 =>
        rw [hom] at h
        obtain rfl : b :: r0 = r := by simpa using h
        simp [ih r0 hom]

theorem omap_get? {α β : Type} (f : α → Option β) :
    ∀ (l : List α) (r : List β), omap f l = some r →
      ∀ (i : Nat) (a : α), l.get? i = some a →
        ∃ b, f a = some b ∧ r.get? i = some b := by
  intro l
  induction l with
  | nil =>
    intro r h i a ha
    simp at ha
  | cons x tl ih =>
    intro r h i a ha
    rw [omap] at h
    cases hfa : f x with
    | none => rw [hfa] at h; simp at h
    | some b =>
      rw [hfa] at h
      cases hom : omap f tl with
      | none => rw [hom] at h; simp at h
      | some r0 =>
        rw [hom] at h
        obtain rfl : b :: r0 = r := by simpa using h
        match i with
        | 0 =>
          obtain rfl : x = a := by simpa using ha
          exact ⟨b, hfa, rfl⟩
        | k + 1 =>
          exact ih r0 hom k a (by simpa using ha)

/-- Claim C10: on a sample without an answer field, gen_mrc_dataset only
replaces each document by one whose paragraphs key is gone and whose
content is the in-order concatenation of its paragraphs; every other field
of the sample (question, supporting_paragraph, answer, answer_labels,
fake_answers, ceil_rougel) is left unchanged, and no derived field is
added. -/
theorem claim10_no_answer_frame (s : Sample) (cs : List (List Char))
    (h1 : s.answer = none) (h2 : contentsOf s = some cs) :
    gen_mrc_dataset s =
      some { s with documents := cs.map (fun c => Document.mk none (some c)) } ∧
    cs.length = s.documents.length ∧
    ∀ i d, s.documents.get? i = some d →
      ∃ ps, d.paragraphs = some ps ∧ cs.get? i = some ps.flatten := by
  refine ⟨?_, ?_, ?_⟩
  · rw [gen_mrc_dataset, h2, Option.some_bind]
    dsimp only
    rw [h1]
  · exact omap_length _ s.documents cs h2
  · intro i d hd
    obtain ⟨b, hb1, hb2⟩ := omap_get? _ s.documents cs h2 i d hd
    obtain ⟨ps, hps, rfl⟩ := Option.map_eq_some'.mp hb1
    exact ⟨ps, hps, hb2⟩

/-- Witness for claim C10 at c10sample. -/
theorem claim10_no_answer_frame_witness :
    gen_mrc_dataset c10sample =
      some { c10sample with
        documents := [("abc").toList].map (fun c => Document.mk none (some c)) } ∧
    [("abc").toList].length = c10sample.documents.length ∧
    ∀ i d, c10sample.documents.get? i = some d →
      ∃ ps, d.paragraphs = some ps ∧ [("abc").toList].get? i = some ps.flatten :=
  claim10_no_answer_frame c10sample [("abc").toList] (by decide) (by decide)

